import Mathlib

/-!
Verification development for the go-bluetooth documentation-to-binding
pipeline.  The property block parser (gen/parser/property.go) is embedded
via a small regular-expression matcher with Go's leftmost-first submatch
semantics; the runtime property marshaller and the code generator, whose
implementations are not part of the analysed sources, are modelled from
the specification where indicated.
-/

set_option maxRecDepth 4096

/-- Strings are modelled as lists of characters. -/
abbrev Str := List Char

/-! ## A small regular-expression engine

Go's `regexp` package produces, for a non-POSIX pattern, the same match and
submatches that a Perl-style leftmost-first backtracking search would find.
Every starred subterm of the two patterns in `property.go` is a single
character class, so the abstract syntax fixes quantifiers to character
classes and the backtracking search terminates structurally. -/

/-- Capture list: group index paired with the captured characters. -/
abbrev Caps := List (Nat × Str)

/-- Regular-expression abstract syntax.  `cls` matches one character
satisfying the predicate; `star` is a quantified character class with a
greedy or lazy flag; `opt` is `(...)?` with a greedy or lazy flag. -/
inductive RE where
  | eps : RE
  | cls (p : Char → Bool) : RE
  | star (p : Char → Bool) (greedy : Bool) : RE
  | seq (a b : RE) : RE
  | alt (a b : RE) : RE
  | opt (r : RE) (greedy : Bool) : RE
  | group (i : Nat) (r : RE) : RE

/-- The suffixes a quantified character class can leave behind, in
backtracking preference order (longest first when greedy). -/
def starRests (p : Char → Bool) (s : Str) (greedy : Bool) : List Str :=
  let rests := (List.range ((s.takeWhile p).length + 1)).map (fun k => s.drop k)
  if greedy then rests.reverse else rests

/-- Return the first success among alternatives, in order. -/
def tryEach (f : Str → Option Caps) : List Str → Option Caps
  | [] => none
  | s :: rest =>
    match f s with
    | some out => some out
    | none => tryEach f rest

/-- Record a submatch for group `i`. -/
def setCap (i : Nat) (v : Str) (caps : Caps) : Caps := caps ++ [(i, v)]

/-- Look up the submatch of group `i`, `none` when the group did not take
part in the match (Go reports a nil submatch there). -/
def lookupCap (i : Nat) : Caps → Option Str
  | [] => none
  | (j, v) :: rest => if j = i then some v else lookupCap i rest

/-- Submatch as a byte string: a nil submatch converts to `""`, exactly as
`string(matches2[0][k])` does in Go. -/
def capStr (i : Nat) (caps : Caps) : Str := (lookupCap i caps).getD []

/-- Backtracking matcher in continuation-passing style: tries the
alternatives of `r` against `s` in leftmost-first preference order,
handing each residual suffix and capture list to the continuation, and
returns the first overall success. -/
def mfirst : RE → Str → Caps → (Str → Caps → Option Caps) → Option Caps
  | .eps, s, caps, k => k s caps
  | .cls p, s, caps, k =>
    match s with
    | [] => none
    | c :: rest => if p c then k rest caps else none
  | .star p greedy, s, caps, k => tryEach (fun s2 => k s2 caps) (starRests p s greedy)
  | .seq a b, s, caps, k => mfirst a s caps (fun s2 caps2 => mfirst b s2 caps2 k)
  | .alt a b, s, caps, k =>
    match mfirst a s caps k with
    | some out => some out
    | none => mfirst b s caps k
  | .opt r greedy, s, caps, k =>
    if greedy then
      match mfirst r s caps k with
      | some out => some out
      | none => k s caps
    else
      match k s caps with
      | some out => some out
      | none => mfirst r s caps k
  | .group i r, s, caps, k =>
    mfirst r s caps (fun s2 caps2 => k s2 (setCap i (s.take (s.length - s2.length)) caps2))

/-- Unanchored leftmost-first search: try each start position from the
left, and at each position take the first match in backtracking order.
This is the match `regexp.FindAllSubmatch(raw, -1)` reports first. -/
def reFind (r : RE) (s : Str) : Option Caps :=
  match mfirst r s [] (fun _ caps => some caps) with
  | some caps => some caps
  | none =>
    match s with
    | [] => none
    | _ :: t => reFind r t

/-! ## The two patterns of `PropertyParser.Parse` -/

/-- A literal string as a regular expression. -/
def litRE : Str → RE
  | [] => .eps
  | c :: rest => .seq (.cls (fun x => x == c)) (litRE rest)

/-- `.` without the `s` flag: any character but a newline. -/
def notNL (c : Char) : Bool := !(c == '\n')

/-- `(?s).`: any character. -/
def anyChar (_ : Char) : Bool := true

/-- `[A-Z]`. -/
def isUpperAZ (c : Char) : Bool := 'A' ≤ c && c ≤ 'Z'

/-- `[ \t]`. -/
def spaceTab (c : Char) : Bool := c == ' ' || c == '\t'

/-- `[^\]]`. -/
def notRBrack (c : Char) : Bool := !(c == ']')

/-- The alternation of `propBaseRegexp`:
`bool|boolean|byte|string|int16|uint16|uint16_t|uint32|dict|object|array\x7b.*?`,
in source order (the last branch is the literal `array\x7b` followed by a
lazy `.*?`). -/
def typeAltRE : RE :=
  .alt (litRE (String.toList "bool"))
  (.alt (litRE (String.toList "boolean"))
  (.alt (litRE (String.toList "byte"))
  (.alt (litRE (String.toList "string"))
  (.alt (litRE (String.toList "int16"))
  (.alt (litRE (String.toList "uint16"))
  (.alt (litRE (String.toList "uint16_t"))
  (.alt (litRE (String.toList "uint32"))
  (.alt (litRE (String.toList "dict"))
  (.alt (litRE (String.toList "object"))
        (.seq (litRE (String.toList "array\x7b")) (.star notNL false)))))))))))

/-- `([A-Z].+?)`, capture group 2. -/
def nameRE : RE :=
  .group 2 (.seq (.cls isUpperAZ) (.seq (.cls notNL) (.star notNL false)))

/-- `( \[[^\]]*\].*)?`, capture group 3 (greedy option). -/
def flagOptRE : RE :=
  .opt (.group 3
    (.seq (.cls (fun c => c == ' '))
    (.seq (.cls (fun c => c == '['))
    (.seq (.star notRBrack true)
    (.seq (.cls (fun c => c == ']'))
          (.star notNL true)))))) true

/-- The strict pattern
`[ \t]*?(bool|…|array\x7b.*?) ([A-Z].+?)( \[[^\]]*\].*)?\n((?s).+)`. -/
def strictRE : RE :=
  .seq (.star spaceTab false)
  (.seq (.group 1 typeAltRE)
  (.seq (.cls (fun c => c == ' '))
  (.seq nameRE
  (.seq flagOptRE
  (.seq (.cls (fun c => c == '\n'))
        (.group 4 (.seq (.cls anyChar) (.star anyChar true))))))))

/-- The fallback pattern `[ \t]*?(bool|…|array\x7b.*?) ([A-Z].+?)\n((?s).+)`
(the docs paragraph is group 3 here). -/
def looseRE : RE :=
  .seq (.star spaceTab false)
  (.seq (.group 1 typeAltRE)
  (.seq (.cls (fun c => c == ' '))
  (.seq nameRE
  (.seq (.cls (fun c => c == '\n'))
        (.group 3 (.seq (.cls anyChar) (.star anyChar true)))))))

/-! ## Go string helpers used by `Parse` -/

/-- `strings.Split(s, sep)` for a one-character separator:
`splitOnChar ',' "" = [""]`, `splitOnChar ',' "a,,b" = ["a","","b"]`. -/
def splitOnChar (sep : Char) : Str → List Str
  | [] => [[]]
  | c :: rest =>
    if c == sep then [] :: splitOnChar sep rest
    else
      match splitOnChar sep rest with
      | [] => [[c]]
      | t :: ts => (c :: t) :: ts

/-- Membership of a character in a cutset string. -/
def inCut (cut : Str) (c : Char) : Bool := cut.any (fun x => c == x)

/-- `strings.Trim(s, cutset)`: remove the leading and trailing characters
contained in the cutset. -/
def trimCutset (cut : Str) (s : Str) : Str :=
  (((s.dropWhile (inCut cut)).reverse.dropWhile (inCut cut))).reverse

/-- `strings.Contains(s, sub)`. -/
def containsSub (pat : Str) : Str → Bool
  | [] => pat.isEmpty
  | c :: t => pat.isPrefixOf (c :: t) || containsSub pat t

/-- Fuel-indexed worker for `replaceSub`; the fuel bounds the length of
the remaining input, keeping the recursion structural (a deleted
occurrence skips at least one character). -/
def replaceSubAux (pat : Str) : Nat → Str → Str
  | _, [] => []
  | 0, s => s
  | fuel + 1, c :: t =>
    if (!pat.isEmpty) && pat.isPrefixOf (c :: t) then
      replaceSubAux pat fuel ((c :: t).drop pat.length)
    else
      c :: replaceSubAux pat fuel t

/-- `strings.Replace(s, pat, "", -1)`: delete every occurrence of `pat`,
scanning left to right, resuming after each deleted occurrence. -/
def replaceSub (pat : Str) (s : Str) : Str := replaceSubAux pat s.length s

/-! ## The property model (`gen/types`)

The `gen/types` package itself is not among the analysed sources; the
parser requires only that the three flag constants are distinct positive
values (`flag > 0` guards the append). -/

/-- Modelled from the spec: the ReadOnly flag constant of `gen/types`
(the concrete numeric value is not part of the analysed sources; the
parser only tests positivity and distinctness). -/
def FlagReadOnly : Nat := 1

/-- Modelled from the spec: the ReadWrite flag constant of `gen/types`. -/
def FlagReadWrite : Nat := 2

/-- Modelled from the spec: the Experimental flag constant of `gen/types`. -/
def FlagExperimental : Nat := 3

/-- `types.Property`: the parsed property model (`Type` is spelled `Typ`
here because `Type` is reserved in Lean). -/
structure Property where
  Typ : Str
  Name : Str
  Flags : List Nat
  Docs : Str
deriving DecidableEq, Repr

/-- The zero value `new(types.Property)` allocates. -/
def zeroProperty : Property := { Typ := [], Name := [], Flags := [], Docs := [] }

/-! ## `PropertyParser.Parse` (gen/parser/property.go) -/

/-- The `switch f` mapping one comma-separated token to a flag constant,
`0` for a token that is not `readonly`, `readwrite` or `experimental`. -/
def flagOfToken (f : Str) : Nat :=
  if f = String.toList "readonly" then FlagReadOnly
  else if f = String.toList "readwrite" then FlagReadWrite
  else if f = String.toList "experimental" then FlagExperimental
  else 0

/-- The in-loop fixup: when the token still holds a `]` (a stray bracket
terminator from a malformed fragment), keep only the part before it
(`strings.Split(f, "]")[0]`). -/
def normToken (f : Str) : Str :=
  if f.contains ']' then f.takeWhile (fun c => !(c == ']')) else f

/-- The flag collection loop: normalize each token, map it through the
switch, and append the flag when it is positive. -/
def collectFlags : List Str → List Nat
  | [] => []
  | f :: rest =>
    let flag := flagOfToken (normToken f)
    if flag > 0 then flag :: collectFlags rest else collectFlags rest

/-- Lines 50–80 of `Parse`: trim `"[] "` from the raw flag-list submatch,
split on commas, and collect the recognized flags. -/
def parseFlags (flagListRaw : Str) : List Nat :=
  collectFlags (splitOnChar ',' (trimCutset (String.toList "[] ") flagListRaw))

/-- The token list the flag loop iterates over, after per-token
normalization; used to state which tokens produce flags. -/
def flagTokens (flagListRaw : Str) : List Str :=
  (splitOnChar ',' (trimCutset (String.toList "[] ") flagListRaw)).map normToken

/-- Lines 82–93 of `Parse`, docs part: delete literal `" \t\n"` sequences,
trim the docs, and prepend `"(optional) "` when the raw name holds the
substring `optional`. -/
def mkDocs (rawName rawDocs : Str) : Str :=
  let docs := trimCutset (String.toList " \t\n") (replaceSub (String.toList " \t\n") rawDocs)
  if containsSub (String.toList "optional") rawName then
    String.toList "(optional) " ++ docs
  else docs

/-- Lines 86–95 of `Parse`, name part: delete the `" (optional)"`
annotation when the raw name holds the substring `optional`, then delete
literal `" \t\n"` sequences. -/
def mkName (rawName : Str) : Str :=
  let name :=
    if containsSub (String.toList "optional") rawName then
      replaceSub (String.toList " (optional)") rawName
    else rawName
  replaceSub (String.toList " \t\n") name

/-- Lines 49–103 of `Parse`: build the property model from the submatches
(group 1 type, group 2 name, group 3 flag list, group 4 docs). -/
def buildProperty (caps : Caps) : Property :=
  { Typ := capStr 1 caps
    Name := mkName (capStr 2 caps)
    Flags := parseFlags (capStr 3 caps)
    Docs := mkDocs (capStr 2 caps) (capStr 4 caps) }

/-- `PropertyParser`: holds the single `types.Property` cell allocated at
construction (`model`) that every call to `Parse` writes into and returns. -/
structure PropertyParser where
  model : Property
  debug : Bool
deriving DecidableEq, Repr

/-- `NewPropertyParser`. -/
def NewPropertyParser (debug : Bool) : PropertyParser :=
  { model := zeroProperty, debug := debug }

/-- `(*PropertyParser).Parse`.  The first component is the parser state
after the call (its `model` cell), the second the returned property (an
alias of that cell in Go), the third the returned error.  The strict
pattern is tried first and the loose one only when it found nothing; the
error is produced exactly when neither found a match, in which case the
cell is left untouched and returned as is.  (The loose-success branch is
unreachable: every string the loose pattern matches is also matched by
the strict pattern, whose flag group is optional — in Go that branch
would stop at `matches2[0][4]`, an out-of-range index; `capStr` renders
the absent group as `""`.  The `len(matches2[0]) == 1` disjunct of the
fallback condition is likewise dead, a submatch slice always having
5 entries.) -/
def PropertyParser.Parse (g : PropertyParser) (raw : Str) :
    PropertyParser × Property × Option Str :=
  match
    (match reFind strictRE raw with
     | some caps => some caps
     | none => reFind looseRE raw) with
  | none => (g, g.model, some (String.toList "No property found"))
  | some caps =>
    let m := buildProperty caps
    ({ model := m, debug := g.debug }, m, none)

/-- Parse one block with a fresh parser and keep the returned
(property, error) pair. -/
def parseProp (raw : Str) : Property × Option Str :=
  ((NewPropertyParser false).Parse raw).2


/-! ## Helper lemmas about the string utilities -/

/-- The head surviving a `dropWhile` falsifies the predicate. -/
lemma dropWhile_head_not (p : Char → Bool) (l : Str) (c : Char)
    (h : (l.dropWhile p).head? = some c) : p c = false := by
  induction l with
  | nil => simp [List.dropWhile] at h
  | cons a t ih =>
    rw [List.dropWhile_cons] at h
    by_cases hp : p a
    · rw [if_pos hp] at h
      exact ih h
    · rw [if_neg hp] at h
      simp only [List.head?_cons, Option.some.injEq] at h
      rw [← h]
      exact Bool.of_not_eq_true hp

/-- Right trimming only removes a suffix, so a nonempty result keeps the
original head. -/
lemma trimRight_head (p : Char → Bool) (l : Str) (c : Char)
    (h : ((l.reverse.dropWhile p).reverse).head? = some c) : l.head? = some c := by
  have h0 : l.reverse.takeWhile p ++ l.reverse.dropWhile p = l.reverse :=
    List.takeWhile_append_dropWhile p l.reverse
  have hsplit : l = (l.reverse.dropWhile p).reverse ++ (l.reverse.takeWhile p).reverse := by
    rw [← List.reverse_append, h0, List.reverse_reverse]
  rw [hsplit]
  cases hx : (l.reverse.dropWhile p).reverse with
  | nil => rw [hx] at h; simp at h
  | cons d r =>
    rw [hx] at h
    simpa using h

/-- A nonempty trimmed string never starts with a cutset character. -/
lemma trim_head_not (cut s : Str) (c : Char)
    (h : (trimCutset cut s).head? = some c) : inCut cut c = false := by
  unfold trimCutset at h
  exact dropWhile_head_not _ _ _ (trimRight_head _ _ _ h)

/-- A nonempty trimmed string never ends with a cutset character. -/
lemma trim_last_not (cut s : Str) (c : Char)
    (h : (trimCutset cut s).getLast? = some c) : inCut cut c = false := by
  unfold trimCutset at h
  rw [List.getLast?_reverse] at h
  exact dropWhile_head_not _ _ _ h

/-- A list is a `isPrefixOf` of itself extended to the right. -/
lemma isPrefixOf_append_self (l t : Str) : l.isPrefixOf (l ++ t) = true := by
  induction l with
  | nil => simp [List.isPrefixOf]
  | cons a r ih => simp [List.isPrefixOf, ih]

/-- One of the three whitespace characters the parser trims. -/
def wsChar (c : Char) : Bool := c == ' ' || c == '\t' || c == '\n'

/-- The string has no leading space, tab or newline. -/
def noLeadWS (s : Str) : Bool :=
  match s.head? with
  | none => true
  | some c => !(wsChar c)

/-- The string has no trailing space, tab or newline. -/
def noTrailWS (s : Str) : Bool :=
  match s.getLast? with
  | none => true
  | some c => !(wsChar c)

/-- Membership in the cutset `" \t\n"` is exactly `wsChar`. -/
lemma inCut_ws (c : Char) : inCut (String.toList " \t\n") c = wsChar c := by
  show inCut [' ', '\t', '\n'] c = wsChar c
  simp [inCut, wsChar, List.any, Bool.or_assoc]

/-- The docs a parsed property carries never starts with a space, tab or
newline: either it was trimmed, or it starts with the `(` of the
prepended optional marker. -/
lemma mkDocs_lead (n d : Str) : noLeadWS (mkDocs n d) = true := by
  unfold mkDocs
  by_cases hopt : containsSub (String.toList "optional") n = true
  · rw [if_pos hopt]
    rfl
  · rw [if_neg hopt]
    unfold noLeadWS
    cases hh : (trimCutset (String.toList " \t\n") (replaceSub (String.toList " \t\n") d)).head? with
    | none => rfl
    | some c =>
      have := trim_head_not _ _ _ hh
      rw [inCut_ws] at this
      simp [this]

/-- When the docs of a parsed property does not begin with the optional
marker, it was the trimmed branch, so it never ends with a space, tab or
newline either. -/
lemma mkDocs_trail (n d : Str)
    (hpre : (String.toList "(optional) ").isPrefixOf (mkDocs n d) = false) :
    noTrailWS (mkDocs n d) = true := by
  unfold mkDocs at *
  by_cases hopt : containsSub (String.toList "optional") n = true
  · rw [if_pos hopt] at hpre
    rw [isPrefixOf_append_self] at hpre
    exact absurd hpre (by simp)
  · rw [if_neg hopt]
    unfold noTrailWS
    cases hh : (trimCutset (String.toList " \t\n") (replaceSub (String.toList " \t\n") d)).getLast? with
    | none => rfl
    | some c =>
      have := trim_last_not _ _ _ hh
      rw [inCut_ws] at this
      simp [this]

/-- The switch yields `FlagReadOnly` exactly for the token `readonly`. -/
lemma flagOfToken_eq_readonly (t : Str) :
    flagOfToken t = FlagReadOnly ↔ t = String.toList "readonly" := by
  unfold flagOfToken FlagReadOnly FlagReadWrite FlagExperimental
  split_ifs with h1 h2 h3 <;> simp_all

/-- The switch yields `FlagReadWrite` exactly for the token `readwrite`. -/
lemma flagOfToken_eq_readwrite (t : Str) :
    flagOfToken t = FlagReadWrite ↔ t = String.toList "readwrite" := by
  unfold flagOfToken FlagReadOnly FlagReadWrite FlagExperimental
  split_ifs with h1 h2 h3 <;> simp_all

/-- The switch takes only the values 0 to 3. -/
lemma flagOfToken_cases (t : Str) :
    flagOfToken t = 0 ∨ flagOfToken t = FlagReadOnly ∨
    flagOfToken t = FlagReadWrite ∨ flagOfToken t = FlagExperimental := by
  unfold flagOfToken FlagReadOnly FlagReadWrite FlagExperimental
  split_ifs <;> simp

/-- Membership in the collected flag list: a positive flag value appears
exactly when some token of the list switches to it. -/
lemma mem_collectFlags (n : Nat) (l : List Str) :
    n ∈ collectFlags l ↔ 0 < n ∧ ∃ f ∈ l, flagOfToken (normToken f) = n := by
  induction l with
  | nil => simp [collectFlags]
  | cons f t ih =>
    simp only [collectFlags]
    by_cases hpos : flagOfToken (normToken f) > 0
    · rw [if_pos hpos]
      simp only [List.mem_cons, ih]
      constructor
      · rintro (rfl | ⟨hn, g, hg, hfl⟩)
        · exact ⟨hpos, f, Or.inl rfl, rfl⟩
        · exact ⟨hn, g, Or.inr hg, hfl⟩
      · rintro ⟨hn, g, rfl | hgt, hfl⟩
        · exact Or.inl hfl.symm
        · exact Or.inr ⟨hn, g, hgt, hfl⟩
    · rw [if_neg hpos]
      rw [ih]
      simp only [List.mem_cons]
      constructor
      · rintro ⟨hn, g, hg, hfl⟩
        exact ⟨hn, g, Or.inr hg, hfl⟩
      · rintro ⟨hn, g, rfl | hgt, hfl⟩
        · omega
        · exact ⟨hn, g, hgt, hfl⟩

/-- Every collected flag is one of the three known constants. -/
lemma collectFlags_known (l : List Str) :
    (collectFlags l).all
      (fun n => n == FlagReadOnly || n == FlagReadWrite || n == FlagExperimental) = true := by
  induction l with
  | nil => rfl
  | cons f t ih =>
    simp only [collectFlags]
    by_cases hpos : flagOfToken (normToken f) > 0
    · rw [if_pos hpos]
      rw [List.all_cons, ih, Bool.and_true]
      rcases flagOfToken_cases (normToken f) with h | h | h | h <;> rw [h] <;> first | omega | rfl
    · rw [if_neg hpos]
      exact ih

/-! ## Structural lemmas about `Parse` -/

/-- When the strict pattern finds a match, `Parse` succeeds on its
submatches (the fallback is not consulted). -/
lemma parseProp_strict (raw : Str) (caps : Caps) (h : reFind strictRE raw = some caps) :
    parseProp raw = (buildProperty caps, none) := by
  unfold parseProp NewPropertyParser PropertyParser.Parse
  rw [h]

/-- When the strict pattern finds nothing and the loose one a match,
`Parse` succeeds on the loose submatches. -/
lemma parseProp_loose (raw : Str) (caps : Caps) (hs : reFind strictRE raw = none)
    (hl : reFind looseRE raw = some caps) :
    parseProp raw = (buildProperty caps, none) := by
  unfold parseProp NewPropertyParser PropertyParser.Parse
  rw [hs, hl]

/-- When neither pattern finds a match, `Parse` reports the error. -/
lemma parseProp_none (raw : Str) (hs : reFind strictRE raw = none)
    (hl : reFind looseRE raw = none) :
    parseProp raw = (zeroProperty, some (String.toList "No property found")) := by
  unfold parseProp NewPropertyParser PropertyParser.Parse
  rw [hs, hl]

/-- Every run of `Parse` either succeeds on some submatch list or
reports the error on the untouched model. -/
lemma parseProp_cases (raw : Str) :
    (∃ caps, parseProp raw = (buildProperty caps, none)) ∨
    parseProp raw = (zeroProperty, some (String.toList "No property found")) := by
  cases hs : reFind strictRE raw with
  | some caps => exact Or.inl ⟨caps, parseProp_strict raw caps hs⟩
  | none =>
    cases hl : reFind looseRE raw with
    | some caps => exact Or.inl ⟨caps, parseProp_loose raw caps hs hl⟩
    | none => exact Or.inr (parseProp_none raw hs hl)

/-- A failing `Parse` leaves the parser state untouched and returns the
stored model cell. -/
lemma Parse_fail_state (g : PropertyParser) (raw : Str)
    (h : ((g.Parse raw).2.2).isSome = true) :
    (g.Parse raw).1 = g ∧ (g.Parse raw).2.1 = g.model := by
  cases hs : reFind strictRE raw with
  | some caps =>
    unfold PropertyParser.Parse at h
    rw [hs] at h
    simp at h
  | none =>
    cases hl : reFind looseRE raw with
    | some caps =>
      unfold PropertyParser.Parse at h
      rw [hs, hl] at h
      simp at h
    | none =>
      unfold PropertyParser.Parse
      rw [hs, hl]
      exact ⟨rfl, rfl⟩

/-- A successful `Parse` stores the returned property in the model cell. -/
lemma Parse_ok_state (g : PropertyParser) (raw : Str)
    (h : (g.Parse raw).2.2 = none) :
    ((g.Parse raw).1).model = (g.Parse raw).2.1 := by
  cases hs : reFind strictRE raw with
  | some caps =>
    unfold PropertyParser.Parse
    rw [hs]
  | none =>
    cases hl : reFind looseRE raw with
    | some caps =>
      unfold PropertyParser.Parse
      rw [hs, hl]
    | none =>
      unfold PropertyParser.Parse at h
      rw [hs, hl] at h
      simp at h

/-! ## The claims -/

/-- Claim C1, counterexample: the block
`bool Powered [readonly,readwrite]` is accepted by `Parse` and its Flags
set holds ReadOnly and ReadWrite together, refuting "at most one of
\x7bReadOnly, ReadWrite\x7d". -/
theorem c1_flags_counterexample :
    (parseProp (String.toList "bool Powered [readonly,readwrite]\n docs.")).2 = none ∧
    FlagReadOnly ∈ (parseProp (String.toList "bool Powered [readonly,readwrite]\n docs.")).1.Flags ∧
    FlagReadWrite ∈ (parseProp (String.toList "bool Powered [readonly,readwrite]\n docs.")).1.Flags := by
  decide

/-- Claim C1, amended: Flags holds ReadOnly exactly when the comma-split,
bracket-stripped token list holds the exact token `readonly`, and
ReadWrite exactly when it holds `readwrite`; `[readonly]` alone yields
exactly ReadOnly, `[readwrite]` alone exactly ReadWrite, while a list
holding both exact tokens yields both flags. -/
theorem c1_flags_amended :
    (∀ s, FlagReadOnly ∈ parseFlags s ↔ String.toList "readonly" ∈ flagTokens s) ∧
    (∀ s, FlagReadWrite ∈ parseFlags s ↔ String.toList "readwrite" ∈ flagTokens s) ∧
    parseProp (String.toList "bool Powered [readonly]\n Current power state.") =
      ({ Typ := String.toList "bool", Name := String.toList "Powered",
         Flags := [FlagReadOnly], Docs := String.toList "Current power state." }, none) ∧
    parseProp (String.toList "bool Powered [readwrite]\n Current power state.") =
      ({ Typ := String.toList "bool", Name := String.toList "Powered",
         Flags := [FlagReadWrite], Docs := String.toList "Current power state." }, none) := by
  refine ⟨fun s => ?_, fun s => ?_, by decide, by decide⟩
  · unfold parseFlags flagTokens
    rw [mem_collectFlags]
    simp only [List.mem_map]
    constructor
    · rintro ⟨-, g, hg, hfl⟩
      exact ⟨g, hg, ((flagOfToken_eq_readonly _).mp hfl).symm ▸ rfl⟩
    · rintro ⟨g, hg, hfl⟩
      exact ⟨by decide, g, hg, (flagOfToken_eq_readonly _).mpr hfl⟩
  · unfold parseFlags flagTokens
    rw [mem_collectFlags]
    simp only [List.mem_map]
    constructor
    · rintro ⟨-, g, hg, hfl⟩
      exact ⟨g, hg, ((flagOfToken_eq_readwrite _).mp hfl).symm ▸ rfl⟩
    · rintro ⟨g, hg, hfl⟩
      exact ⟨by decide, g, hg, (flagOfToken_eq_readwrite _).mpr hfl⟩

/-- Claim C3, counterexample: the block
`bool Foo Bar (optional)` with a whitespace-only docs paragraph is
accepted, yet the parsed Name `Foo Bar` holds a space and the parsed
Docs `(optional) ` ends in a space, refuting both conjuncts of the
claim. -/
theorem c3_counterexample :
    (parseProp (String.toList "bool Foo Bar (optional)\n \n")).2 = none ∧
    ' ' ∈ (parseProp (String.toList "bool Foo Bar (optional)\n \n")).1.Name ∧
    (parseProp (String.toList "bool Foo Bar (optional)\n \n")).1.Docs.getLast? = some ' ' := by
  decide

/-- Claim C3, amended: for every accepted block, Docs never begins with a
space, tab or newline, and unless it begins with the prepended
`(optional) ` marker it never ends with one either; Name, however, is the
matched name segment kept verbatim (apart from deletion of the
` (optional)` annotation and of literal `" \t\n"` sequences) and may
contain whitespace. -/
theorem c3_docs_amended (raw : Str) (m : Property) (h : parseProp raw = (m, none)) :
    noLeadWS m.Docs = true ∧
    ((String.toList "(optional) ").isPrefixOf m.Docs = false → noTrailWS m.Docs = true) := by
  rcases parseProp_cases raw with ⟨caps, hc⟩ | hc
  · rw [hc] at h
    have hm : m = buildProperty caps := (Prod.mk.injEq _ _ _ _ ▸ h : _ ∧ _).1.symm
    rw [hm]
    exact ⟨mkDocs_lead _ _, mkDocs_trail _ _⟩
  · rw [hc] at h
    exact absurd ((Prod.mk.injEq _ _ _ _ ▸ h : _ ∧ _).2) (by simp)

/-- Witness for C3's amended theorem at a concrete accepted block. -/
theorem c3_docs_amended_witness :
    noLeadWS (parseProp (String.toList "bool Name\nSome docs")).1.Docs = true ∧
    noTrailWS (parseProp (String.toList "bool Name\nSome docs")).1.Docs = true :=
  ⟨(c3_docs_amended (String.toList "bool Name\nSome docs")
      (parseProp (String.toList "bool Name\nSome docs")).1 (by decide)).1,
   (c3_docs_amended (String.toList "bool Name\nSome docs")
      (parseProp (String.toList "bool Name\nSome docs")).1 (by decide)).2 (by decide)⟩

/-- Claim C4: a block whose raw name is `Handle (optional)` parses to
Name `Handle` with the annotation removed, and Docs carrying the
`(optional) ` marker prepended exactly once. -/
theorem c4_optional_migration :
    parseProp (String.toList "uint16 Handle (optional)\n  The object handle.") =
      ({ Typ := String.toList "uint16", Name := String.toList "Handle", Flags := [],
         Docs := String.toList "(optional) The object handle." }, none) := by
  decide

/-- Claim C5: the strict pattern is decisive whenever it matches (its
submatches alone feed the model, so the fallback is consulted only when
it found nothing); a block matching the docs-only loose pattern still
parses successfully; and a strict match without the bracketed flag group
yields an empty Flags set rather than a failure. -/
theorem c5_fallback_order :
    (∀ raw caps, reFind strictRE raw = some caps → parseProp raw = (buildProperty caps, none)) ∧
    (∀ raw, reFind looseRE raw ≠ none → (parseProp raw).2 = none) ∧
    (∀ raw caps, reFind strictRE raw = some caps → lookupCap 3 caps = none →
      (parseProp raw).1.Flags = []) := by
  refine ⟨parseProp_strict, fun raw hl => ?_, fun raw caps hs h3 => ?_⟩
  · cases hs : reFind strictRE raw with
    | some caps => rw [parseProp_strict raw caps hs]
    | none =>
      cases hl2 : reFind looseRE raw with
      | some caps => rw [parseProp_loose raw caps hs hl2]
      | none => exact absurd hl2 hl
  · rw [parseProp_strict raw caps hs]
    show parseFlags (capStr 3 caps) = []
    unfold capStr
    rw [h3]
    decide

/-- Witness for C5 at concrete blocks: `bool Name\nSome docs` matches the
strict pattern without a flag group (and the loose pattern too), parses
successfully, and gets an empty Flags set. -/
theorem c5_fallback_order_witness :
    parseProp (String.toList "bool Name\nSome docs") =
      (buildProperty ((reFind strictRE (String.toList "bool Name\nSome docs")).getD []), none) ∧
    (parseProp (String.toList "boolean Connected\nWhether connected.")).2 = none ∧
    (parseProp (String.toList "bool Name\nSome docs")).1.Flags = [] :=
  ⟨c5_fallback_order.1 (String.toList "bool Name\nSome docs")
      ((reFind strictRE (String.toList "bool Name\nSome docs")).getD []) (by decide),
   c5_fallback_order.2.1 (String.toList "boolean Connected\nWhether connected.") (by decide),
   c5_fallback_order.2.2 (String.toList "bool Name\nSome docs")
      ((reFind strictRE (String.toList "bool Name\nSome docs")).getD []) (by decide) (by decide)⟩

/-- Claim C6: `Parse` reports the `No property found` error exactly when
neither pattern matches; a block matched by at least one pattern yields a
model with no error, and failure is only ever this returned error value
(the embedding of `Parse` is a total function). -/
theorem c6_error_iff_no_match (raw : Str) :
    ((parseProp raw).2 = none ↔
      (reFind strictRE raw ≠ none ∨ reFind looseRE raw ≠ none)) ∧
    ((parseProp raw).2 = none ∨
      (parseProp raw).2 = some (String.toList "No property found")) := by
  cases hs : reFind strictRE raw with
  | some caps =>
    rw [parseProp_strict raw caps hs]
    simp
  | none =>
    cases hl : reFind looseRE raw with
    | some caps =>
      rw [parseProp_loose raw caps hs hl]
      simp [hl]
    | none =>
      rw [parseProp_none raw hs hl]
      simp [hs, hl]

/-- Claim C7: an unrecognized token in the bracketed flag list never
causes a failure and contributes no flag (every collected flag is one of
the three known constants); known tokens in the same list still map
normally, as the concrete blocks show (`foo` is dropped while
`readwrite` maps, and the stray-bracket fragment list of
`[read-write, optional] (Server Only)` maps to no flag at all). -/
theorem c7_unknown_tokens_dropped :
    (∀ l, (collectFlags l).all
      (fun n => n == FlagReadOnly || n == FlagReadWrite || n == FlagExperimental) = true) ∧
    parseProp (String.toList "bool Powered [foo,readwrite]\n docs.") =
      ({ Typ := String.toList "bool", Name := String.toList "Powered",
         Flags := [FlagReadWrite], Docs := String.toList "docs." }, none) ∧
    parseProp (String.toList "int16 Handle [read-write, optional] (Server Only)\n docs.") =
      ({ Typ := String.toList "int16", Name := String.toList "Handle",
         Flags := [], Docs := String.toList "docs." }, none) :=
  ⟨collectFlags_known, by decide, by decide⟩

/-- Claim C9: the parser carries a single model cell: it is zero at
construction; a failing `Parse` leaves the state untouched and returns
exactly the stored cell; a successful `Parse` stores the returned
property in the cell (so a later read through the earlier returned
pointer sees the overwrite); and a failing `Parse` that follows a
successful one returns precisely the values of that most recent
successful parse. -/
theorem c9_single_model_cell :
    (∀ d, (NewPropertyParser d).model = zeroProperty) ∧
    (∀ (g : PropertyParser) (raw : Str), ((g.Parse raw).2.2).isSome = true →
      (g.Parse raw).1 = g ∧ (g.Parse raw).2.1 = g.model) ∧
    (∀ (g : PropertyParser) (raw : Str), (g.Parse raw).2.2 = none →
      ((g.Parse raw).1).model = (g.Parse raw).2.1) ∧
    (∀ (g : PropertyParser) (raw1 raw2 : Str), (g.Parse raw1).2.2 = none →
      (((g.Parse raw1).1.Parse raw2).2.2).isSome = true →
      ((g.Parse raw1).1.Parse raw2).2.1 = (g.Parse raw1).2.1) :=
  ⟨fun _ => rfl, Parse_fail_state, Parse_ok_state,
   fun g raw1 raw2 h1 h2 => by
    rw [(Parse_fail_state _ _ h2).2, Parse_ok_state _ _ h1]⟩

/-- Witness for C9 at concrete inputs: a successful parse of a `Powered`
block followed by a failing parse of `nope` returns the `Powered` model,
and a failing parse on a fresh parser leaves its state untouched. -/
theorem c9_single_model_cell_witness :
    (((NewPropertyParser false).Parse
        (String.toList "bool Powered [readonly]\n Current power state.")).1.Parse
        (String.toList "nope")).2.1 =
      ((NewPropertyParser false).Parse
        (String.toList "bool Powered [readonly]\n Current power state.")).2.1 ∧
    ((NewPropertyParser false).Parse (String.toList "nope")).1 = NewPropertyParser false :=
  ⟨c9_single_model_cell.2.2.2 (NewPropertyParser false)
      (String.toList "bool Powered [readonly]\n Current power state.")
      (String.toList "nope") (by decide) (by decide),
   (c9_single_model_cell.2.1 (NewPropertyParser false) (String.toList "nope") (by decide)).1⟩

/-! ## The property marshaller

The `props`/`util` marshaller implementation (props.ToMap,
util.StructToMap, util.MapToStruct) is not among the analysed sources —
only its generated callers and its test are — so this section is
modelled from the specification, section 4.6. -/

/-- Modelled from the spec: the closed variant vocabulary of the
property-map boundary (boolean, byte, 16/32-bit integer, string, byte
sequence, opaque path-like identifier, nested mapping). -/
inductive VKind where
  | kBool | kByte | kInt16 | kUInt16 | kUInt32 | kString | kBytes | kPath | kDict
deriving DecidableEq, Repr

/-- Modelled from the spec: a tagged value of the closed variant
vocabulary. -/
inductive Variant where
  | vBool (b : Bool)
  | vByte (n : Nat)
  | vInt16 (i : Int)
  | vUInt16 (n : Nat)
  | vUInt32 (n : Nat)
  | vString (s : Str)
  | vBytes (bs : List Nat)
  | vPath (p : Str)
  | vDict (entries : List (Str × Nat))

/-- The kind tag of a variant. -/
def kindOf : Variant → VKind
  | .vBool _ => .kBool
  | .vByte _ => .kByte
  | .vInt16 _ => .kInt16
  | .vUInt16 _ => .kUInt16
  | .vUInt32 _ => .kUInt32
  | .vString _ => .kString
  | .vBytes _ => .kBytes
  | .vPath _ => .kPath
  | .vDict _ => .kDict

/-- The zero/empty value of each kind. -/
def zeroOf : VKind → Variant
  | .kBool => .vBool false
  | .kByte => .vByte 0
  | .kInt16 => .vInt16 0
  | .kUInt16 => .vUInt16 0
  | .kUInt32 => .vUInt32 0
  | .kString => .vString []
  | .kBytes => .vBytes []
  | .kPath => .vPath []
  | .kDict => .vDict []

/-- Modelled from the spec: whether a value equals its type's zero/empty
value (the `OmitIfEmpty` test). -/
def isEmptyValue : Variant → Bool
  | .vBool b => !b
  | .vByte n => n == 0
  | .vInt16 i => i == 0
  | .vUInt16 n => n == 0
  | .vUInt32 n => n == 0
  | .vString s => s.isEmpty
  | .vBytes bs => bs.isEmpty
  | .vPath p => p.isEmpty
  | .vDict entries => entries.isEmpty

/-- Modelled from the spec: the per-field directive set derived once per
record type (skip, conditional skip on a sibling flag, omit-if-empty,
writable). -/
structure FieldDescriptor where
  Skip : Bool
  SkipIfFlag : Option Str
  OmitIfEmpty : Bool
  Writable : Bool

/-- Modelled from the spec: one record field — its name, its resolved
descriptor, its declared kind and its current value. -/
structure PField where
  fname : Str
  fdesc : FieldDescriptor
  ftype : VKind
  fvalue : Variant

/-- A record: its fields in declaration order. -/
abbrev Record := List PField

/-- Modelled from the spec: whether the sibling boolean field named by a
`SkipIfFlag` directive is currently true. -/
def flagTrue (r : Record) (fn : Str) : Bool :=
  r.any (fun f => f.fname == fn &&
    (match f.fvalue with
     | .vBool true => true
     | _ => false))

/-- Modelled from the spec: a field is excluded from `ToMap` when its
descriptor marks it Skip, when `SkipIfFlag` names a sibling boolean field
currently true, or when `OmitIfEmpty` is set and the value is the zero
value. -/
def excludeField (r : Record) (f : PField) : Bool :=
  f.fdesc.Skip ||
  (match f.fdesc.SkipIfFlag with
   | some fn => flagTrue r fn
   | none => false) ||
  (f.fdesc.OmitIfEmpty && isEmptyValue f.fvalue)

/-- Modelled from the spec: `ToMap` iterates the fields in declaration
order and emits every non-excluded field keyed by its name. -/
def ToMap (r : Record) : List (Str × Variant) :=
  (r.filter (fun f => !excludeField r f)).map (fun f => (f.fname, f.fvalue))

/-- First-match lookup in a property mapping. -/
def lookupA (key : Str) : List (Str × Variant) → Option Variant
  | [] => none
  | (k2, v) :: rest => if k2 = key then some v else lookupA key rest

/-- The shape of a record type: names, descriptors and declared kinds in
declaration order (what the PField Descriptor Resolver yields). -/
abbrev Shape := List (Str × FieldDescriptor × VKind)

/-- The shape of a concrete record. -/
def shapeOf (r : Record) : Shape := r.map (fun f => (f.fname, f.fdesc, f.ftype))

/-- Modelled from the spec: assignment conversion — a value of the
declared kind is taken as is, integer-width conversions are performed
(narrowing wraps), anything else is a non-convertible mismatch. -/
def convert (v : Variant) (k : VKind) : Option Variant :=
  if kindOf v = k then some v
  else
    match v, k with
    | .vByte n, .kUInt16 => some (.vUInt16 n)
    | .vByte n, .kUInt32 => some (.vUInt32 n)
    | .vUInt16 n, .kUInt32 => some (.vUInt32 n)
    | .vUInt16 n, .kByte => some (.vByte (n % 256))
    | .vUInt32 n, .kUInt16 => some (.vUInt16 (n % 65536))
    | .vUInt32 n, .kByte => some (.vByte (n % 256))
    | _, _ => none

/-- Modelled from the spec: `FromMap` allocates a fresh record; a field
whose name has a mapping entry is assigned the converted value, a
non-convertible entry aborts with a TypeMismatch error naming the field,
a field with no entry keeps its zero value, and entries with no matching
field are ignored. -/
def FromMap : Shape → List (Str × Variant) → Except Str Record
  | [], _ => .ok []
  | (n, d, k) :: rest, m =>
    match lookupA n m with
    | none =>
      (FromMap rest m).map
        (fun tl => { fname := n, fdesc := d, ftype := k, fvalue := zeroOf k } :: tl)
    | some v =>
      match convert v k with
      | some v2 =>
        (FromMap rest m).map
          (fun tl => { fname := n, fdesc := d, ftype := k, fvalue := v2 } :: tl)
      | none => .error (String.toList "TypeMismatch: " ++ n)

/-- A value of the declared kind converts to itself. -/
lemma convert_self (v : Variant) (k : VKind) (h : kindOf v = k) :
    convert v k = some v := by
  unfold convert
  rw [if_pos h]

/-- First-match lookup finds the stored value when keys are unique. -/
lemma lookupA_eq_of_mem (l : List (Str × Variant)) (k : Str) (v : Variant)
    (hm : (k, v) ∈ l) (hn : (l.map Prod.fst).Nodup) : lookupA k l = some v := by
  induction l with
  | nil => simp at hm
  | cons p rest ih =>
    obtain ⟨k2, v2⟩ := p
    rw [List.map_cons, List.nodup_cons] at hn
    rcases List.mem_cons.mp hm with heq | hmem
    · obtain ⟨rfl, rfl⟩ := Prod.mk.injEq .. ▸ heq
      unfold lookupA
      rw [if_pos rfl]
    · unfold lookupA
      by_cases hk : k2 = k
      · subst hk
        exact absurd (List.mem_map.mpr ⟨(k2, v), hmem, rfl⟩) hn.1
      · rw [if_neg hk]
        exact ih hmem hn.2

/-- `FromMap` rebuilds exactly the fields whose values the mapping holds
under their names with matching kinds. -/
lemma FromMap_of_lookup (rs : Record) (m : List (Str × Variant))
    (h : ∀ f ∈ rs, lookupA f.fname m = some f.fvalue ∧ kindOf f.fvalue = f.ftype) :
    FromMap (shapeOf rs) m = .ok rs := by
  induction rs with
  | nil => rfl
  | cons f rest ih =>
    obtain ⟨hlook, hkind⟩ := h f (List.mem_cons_self f rest)
    have hconv := convert_self f.fvalue f.ftype hkind
    have hrest := ih (fun g hg => h g (List.mem_cons_of_mem f hg))
    show FromMap ((f.fname, f.fdesc, f.ftype) :: shapeOf rest) m = .ok (f :: rest)
    unfold FromMap
    rw [hlook]
    simp only [hconv, hrest, Except.map]

/-- Claim C2: round-trip law of the marshaller — for a record with
unique field names all of whose fields are non-skip (no Skip or
SkipIfFlag directive applies) and non-empty (no OmitIfEmpty exclusion
applies), `FromMap (ToMap r)` reproduces the record exactly. -/
theorem c2_roundtrip (r : Record)
    (hnd : (r.map PField.fname).Nodup)
    (hwt : r.all (fun f => decide (kindOf f.fvalue = f.ftype)) = true)
    (hinc : r.all (fun f => !excludeField r f) = true) :
    FromMap (shapeOf r) (ToMap r) = .ok r := by
  apply FromMap_of_lookup
  intro f hf
  have hkind : kindOf f.fvalue = f.ftype :=
    of_decide_eq_true (List.all_eq_true.mp hwt f hf)
  refine ⟨?_, hkind⟩
  have hkeep : (!excludeField r f) = true := List.all_eq_true.mp hinc f hf
  have hmem : (f.fname, f.fvalue) ∈ ToMap r :=
    List.mem_map.mpr ⟨f, List.mem_filter.mpr ⟨hf, hkeep⟩, rfl⟩
  have hnodup : ((ToMap r).map Prod.fst).Nodup := by
    unfold ToMap
    rw [List.map_map]
    exact List.Nodup.sublist
      (List.Sublist.map PField.fname (List.filter_sublist r)) hnd
  exact lookupA_eq_of_mem _ _ _ hmem hnodup

/-- The record of the marshaller test (`api/properties_service_test.go`)
restricted to two plain fields with distinct names. -/
def testRecord : Record :=
  [ { fname := String.toList "Avail"
      fdesc := { Skip := false, SkipIfFlag := none, OmitIfEmpty := false, Writable := false }
      ftype := .kString
      fvalue := .vString (String.toList "foo") },
    { fname := String.toList "Delay"
      fdesc := { Skip := false, SkipIfFlag := none, OmitIfEmpty := false, Writable := true }
      ftype := .kUInt16
      fvalue := .vUInt16 5 } ]

/-- Witness for C2 at a concrete record. -/
theorem c2_roundtrip_witness :
    FromMap (shapeOf testRecord) (ToMap testRecord) = .ok testRecord :=
  c2_roundtrip testRecord (by decide) (by decide) (by decide)

/-! ## The code generator

The generator implementation is not among the analysed sources (only its
test is), so it is modelled from the specification, sections 4.4 and 6:
each interface model renders deterministically to one artifact whose
path is a pure function of the model, written under the destination
root, overwriting in place. -/

/-- Modelled from the spec: the assembled model of one protocol
interface (specification section 3). -/
structure InterfaceModel where
  Name : Str
  Properties : List Property
  Docs : Str

/-- A destination file tree: path to content, `none` where no file is. -/
def FileTree : Type := Str → Option Str

/-- Write one file, overwriting any previous content at the path. -/
def writeFile (t : FileTree) (path content : Str) : FileTree :=
  fun q => if q = path then some content else t q

/-- Modelled from the spec: the Code Generator renders each interface
model in turn through the deterministic `render` function and writes the
artifact into the destination tree. -/
def Generate (render : InterfaceModel → Str × Str) :
    List InterfaceModel → FileTree → FileTree
  | [], dest => dest
  | m :: rest, dest => Generate render rest (writeFile dest (render m).1 (render m).2)

/-- The last artifact a generation run writes at a path, when any. -/
def lastOutput (render : InterfaceModel → Str × Str) :
    List InterfaceModel → Str → Option Str
  | [], _ => none
  | m :: rest, p =>
    match lastOutput render rest p with
    | some c => some c
    | none => if (render m).1 = p then some (render m).2 else none

/-- A generation run reads back as: the last artifact written at the
path when one exists, the prior tree content otherwise. -/
lemma Generate_apply (render : InterfaceModel → Str × Str)
    (models : List InterfaceModel) : ∀ (dest : FileTree) (p : Str),
    Generate render models dest p =
      match lastOutput render models p with
      | some c => some c
      | none => dest p := by
  induction models with
  | nil => intro dest p; rfl
  | cons m rest ih =>
    intro dest p
    show Generate render rest (writeFile dest (render m).1 (render m).2) p = _
    rw [ih]
    cases hlo : lastOutput render rest p with
    | some c => simp [lastOutput, hlo]
    | none =>
      show writeFile dest (render m).1 (render m).2 p = _
      unfold writeFile lastOutput
      rw [hlo]
      by_cases hp : (render m).1 = p
      · subst hp
        simp
      · rw [if_neg (fun h : p = (render m).1 => hp h.symm), if_neg hp]

/-- Claim C8: generation is idempotent — running the generator twice
with an unchanged model sequence against the same destination yields a
byte-identical file tree. -/
theorem c8_generate_idempotent (render : InterfaceModel → Str × Str)
    (models : List InterfaceModel) (dest : FileTree) (p : Str) :
    Generate render models (Generate render models dest) p =
      Generate render models dest p := by
  rw [Generate_apply, Generate_apply]
  cases hc : lastOutput render models p <;> simp [hc]

/-! ## Generated property getters (`gen_MediaTransport1.go`)

Each generated getter calls `a.GetProperty(name)` on the abstract remote
transport — which returns a variant together with an error — and on a
non-nil error returns the zero value of its declared type alongside the
error; otherwise it type-asserts the variant (in Go the assertion panics
on a wrong kind, modelled here as `none`). -/

/-- The abstract transport behind one `MediaTransport1` client: what
`a.client.GetProperty` answers per property name. -/
structure MediaTransport1Client where
  getProperty : Str → Variant × Option Str

/-- `GetDevice`: zero value `dbus.ObjectPath("")`. -/
def GetDevice (a : MediaTransport1Client) : Option (Str × Option Str) :=
  match a.getProperty (String.toList "Device") with
  | (_, some e) => some ([], some e)
  | (v, none) =>
    match v with
    | .vPath p => some (p, none)
    | _ => none

/-- `GetUUID`: zero value `""`. -/
def GetUUID (a : MediaTransport1Client) : Option (Str × Option Str) :=
  match a.getProperty (String.toList "UUID") with
  | (_, some e) => some ([], some e)
  | (v, none) =>
    match v with
    | .vString s => some (s, none)
    | _ => none

/-- `GetCodec`: zero value `byte(0)`. -/
def GetCodec (a : MediaTransport1Client) : Option (Nat × Option Str) :=
  match a.getProperty (String.toList "Codec") with
  | (_, some e) => some (0, some e)
  | (v, none) =>
    match v with
    | .vByte n => some (n, none)
    | _ => none

/-- `GetConfiguration`: zero value `[]byte\x7b\x7d`. -/
def GetConfiguration (a : MediaTransport1Client) : Option (List Nat × Option Str) :=
  match a.getProperty (String.toList "Configuration") with
  | (_, some e) => some ([], some e)
  | (v, none) =>
    match v with
    | .vBytes bs => some (bs, none)
    | _ => none

/-- `GetState`: zero value `""`. -/
def GetState (a : MediaTransport1Client) : Option (Str × Option Str) :=
  match a.getProperty (String.toList "State") with
  | (_, some e) => some ([], some e)
  | (v, none) =>
    match v with
    | .vString s => some (s, none)
    | _ => none

/-- `GetDelay`: zero value `uint16(0)`. -/
def GetDelay (a : MediaTransport1Client) : Option (Nat × Option Str) :=
  match a.getProperty (String.toList "Delay") with
  | (_, some e) => some (0, some e)
  | (v, none) =>
    match v with
    | .vUInt16 n => some (n, none)
    | _ => none

/-- `GetVolume`: zero value `uint16(0)`. -/
def GetVolume (a : MediaTransport1Client) : Option (Nat × Option Str) :=
  match a.getProperty (String.toList "Volume") with
  | (_, some e) => some (0, some e)
  | (v, none) =>
    match v with
    | .vUInt16 n => some (n, none)
    | _ => none

/-- Claim C10: whenever the remote `GetProperty` call fails, every
generated getter returns the zero/empty value of its declared return
type together with that error — never a partially decoded value, whatever
variant the transport delivered alongside the error. -/
theorem c10_getter_zero_on_error (v : Variant) (e : Str) :
    GetDevice ⟨fun _ => (v, some e)⟩ = some ([], some e) ∧
    GetUUID ⟨fun _ => (v, some e)⟩ = some ([], some e) ∧
    GetCodec ⟨fun _ => (v, some e)⟩ = some (0, some e) ∧
    GetConfiguration ⟨fun _ => (v, some e)⟩ = some ([], some e) ∧
    GetState ⟨fun _ => (v, some e)⟩ = some ([], some e) ∧
    GetDelay ⟨fun _ => (v, some e)⟩ = some (0, some e) ∧
    GetVolume ⟨fun _ => (v, some e)⟩ = some (0, some e) :=
  ⟨rfl, rfl, rfl, rfl, rfl, rfl, rfl⟩
